import Mathlib

/-
Shallow embedding of the crawl-and-normalize pipeline of `unreleasedcommits`
(main.go): the repository enumerator `listPublicRepos`, the release resolver
`checkLatestRelease`, the commit-range collector `compareAllCommits`, the
per-commit normalization inside `runCrawl`, and the crawl orchestrator
`runCrawl` itself.

Conventions of the embedding:
- Go pointers that may be nil become `Option`; the generated go-github
  accessors (`GetLogin`, `GetName`, `GetDate`, `GetTagName`, ...) are modelled
  as total functions on `Option` that return the zero value on `none`, exactly
  as the library's nil-receiver guards do.  A *direct field selector* on a
  possibly-nil pointer (which panics in Go) is modelled explicitly: see
  `buildCommitInfo`.
- `time.Time` values are modelled as `Nat` instants.
- The paginated GitHub endpoints are modelled by a simulated source holding a
  full item list: `pageItems`/`pageNext` give the page contents and the
  `NextPage` field of the response (0 = no next page), with page number 0
  treated as page 1 as GitHub does.
- The Go `for {}` loops of the two paginated fetchers are given a fuel
  argument; the top-level functions run them with fuel `items.length + 1`.
  A `none` result models non-termination / fuel exhaustion, so a `some`
  result proves the loop stops after finitely many page requests.
- Remote calls that can fail return `Except Unit`; a Go panic aborting the
  whole process is `Except GoPanic` threaded through the orchestrator.
-/

namespace Unreleased

/-- Contents of page `page` of the simulated paginated source whose complete
item list is `items`, with `perPage` items per page.  Page number 0 is
treated as page 1, as the GitHub API does for the zero value of
`ListOptions.Page`. -/
def pageItems {α : Type} (items : List α) (perPage page : Nat) : List α :=
  (items.drop ((max page 1 - 1) * perPage)).take perPage

/-- The `NextPage` field of the simulated response for page `page`: the next
page number if more items remain beyond this page, otherwise 0. -/
def pageNext {α : Type} (items : List α) (perPage page : Nat) : Nat :=
  if max page 1 * perPage < items.length then max page 1 + 1 else 0

/-- Concatenation of the first `pages` pages of the simulated source, in page
order. -/
def pagesJoin {α : Type} (items : List α) (perPage pages : Nat) : List α :=
  ((List.range pages).map (fun i => pageItems items perPage (i + 1))).flatten

/-- Loop body of `listPublicRepos` (main.go): append the page, truncate and
return once `limit` is reached (when `limit > 0`), stop when the response
reports no next page, otherwise continue with `resp.NextPage`. -/
def listLoop {α : Type} (items : List α) (perPage limit : Nat) :
    Nat → Nat → List α → Option (List α)
  | 0, _, _ => none
  | fuel + 1, page, acc =>
    let chunk := pageItems items perPage page
    let next := pageNext items perPage page
    let acc2 := acc ++ chunk
    if 0 < limit ∧ limit ≤ acc2.length then some (acc2.take limit)
    else if next = 0 then some acc2
    else listLoop items perPage limit fuel next acc2

/-- Model of `listPublicRepos` (main.go): starts with the zero-valued
`ListOptions` (page 0) and an empty accumulator.  The Go code fixes
`PerPage: 100`; the loop logic is identical for any positive page size, so
the page size is a parameter here. -/
def listPublicRepos {α : Type} (items : List α) (perPage limit : Nat) :
    Option (List α) :=
  listLoop items perPage limit (items.length + 1) 0 []

/-- Loop body of `compareAllCommits` (main.go): append the page, stop when the
response reports no next page or the page returned fewer items than the page
size, otherwise continue with `resp.NextPage`. -/
def compareLoop {α : Type} (items : List α) (perPage : Nat) :
    Nat → Nat → List α → Option (List α)
  | 0, _, _ => none
  | fuel + 1, page, acc =>
    let chunk := pageItems items perPage page
    let next := pageNext items perPage page
    let acc2 := acc ++ chunk
    if next = 0 ∨ chunk.length < perPage then some acc2
    else compareLoop items perPage fuel next acc2

/-- Model of `compareAllCommits` (main.go): collects the commits of the
range comparison, starting at page 1.  The Go code fixes `perPage := 100`;
the page size is a parameter here for the same reason as in
`listPublicRepos`. -/
def compareAllCommits {α : Type} (items : List α) (perPage : Nat) :
    Option (List α) :=
  compareLoop items perPage (items.length + 1) 1 []

/-- Model of `*github.User` as used here: only the `Login` field is read. -/
structure GoUser where
  login : Option String
  deriving DecidableEq

/-- Model of `*github.CommitAuthor`: the `Name` and `Date` fields are read. -/
structure GoCommitAuthor where
  name : Option String
  date : Option Nat
  deriving DecidableEq

/-- Model of `*github.Commit` (the embedded commit metadata): the `Author`
and `Message` fields are read. -/
structure GoCommitMeta where
  author : Option GoCommitAuthor
  message : Option String
  deriving DecidableEq

/-- Model of `*github.RepositoryCommit` with the fields `runCrawl` reads:
`SHA`, `Author` (platform-linked user), `Commit` (embedded metadata) and
`HTMLURL`. -/
structure RawCommit where
  sha : Option String
  author : Option GoUser
  commit : Option GoCommitMeta
  htmlURL : Option String
  deriving DecidableEq

/-- The go-github accessor `(*User).GetLogin`: empty string on a nil
receiver or nil field. -/
def userGetLogin : Option GoUser → String
  | none => ""
  | some u => u.login.getD ""

/-- The go-github accessor `(*CommitAuthor).GetName`: empty string on a nil
receiver or nil field. -/
def commitAuthorGetName : Option GoCommitAuthor → String
  | none => ""
  | some a => a.name.getD ""

/-- The go-github accessor `(*CommitAuthor).GetDate`: the zero `Timestamp`
(modelled as instant 0) on a nil receiver or nil field. -/
def commitAuthorGetDate : Option GoCommitAuthor → Nat
  | none => 0
  | some a => a.date.getD 0

/-- The field selector `.Author` on a `*github.Commit` value, as a total
function.  In Go this selector panics when the pointer is nil; the one place
where `runCrawl` applies it to a possibly-nil pointer without a guard is
modelled explicitly in `buildCommitInfo`, and everywhere else the Go code
short-circuits on a nil check first. -/
def commitMetaAuthor : Option GoCommitMeta → Option GoCommitAuthor
  | none => none
  | some m => m.author

/-- The go-github accessor `(*Commit).GetMessage`: empty string on a nil
receiver or nil field. -/
def commitGetMessage : Option GoCommitMeta → String
  | none => ""
  | some m => m.message.getD ""

/-- The go-github accessor `(*RepositoryCommit).GetSHA`. -/
def rawGetSHA (c : RawCommit) : String := c.sha.getD ""

/-- The go-github accessor `(*RepositoryCommit).GetHTMLURL`. -/
def rawGetHTMLURL (c : RawCommit) : String := c.htmlURL.getD ""

/-- Author resolution in `runCrawl` (main.go): start from `"unknown"`, use
`c.Author.GetLogin()` when `c.Author != nil` and the login is non-empty,
otherwise use `c.Commit.Author.GetName()` when `c.Commit != nil`,
`c.Commit.Author != nil` and the name is non-empty. -/
def resolveAuthor (c : RawCommit) : String :=
  if c.author.isSome ∧ userGetLogin c.author ≠ "" then
    userGetLogin c.author
  else if c.commit.isSome ∧ (commitMetaAuthor c.commit).isSome ∧
      commitAuthorGetName (commitMetaAuthor c.commit) ≠ "" then
    commitAuthorGetName (commitMetaAuthor c.commit)
  else
    "unknown"

/-- A Go runtime panic reached by the crawl loop. -/
inductive GoPanic
  | nilDereference
  deriving DecidableEq

/-- Model of the source's `CommitInfo` struct (main.go). -/
structure CommitInfo where
  sha : String
  author : String
  message : String
  timestamp : Nat
  url : String
  deriving DecidableEq

/-- The `CommitInfo` literal built for one commit in `runCrawl` (main.go):
`SHA`, resolved author, `c.Commit.GetMessage()`,
`c.Commit.Author.GetDate().Time` and `HTMLURL`.  Reachable only after the
commit metadata was established non-nil (see `buildCommitInfo`). -/
def commitInfoOf (c : RawCommit) : CommitInfo :=
  { sha := rawGetSHA c
    author := resolveAuthor c
    message := commitGetMessage c.commit
    timestamp := commitAuthorGetDate (commitMetaAuthor c.commit)
    url := rawGetHTMLURL c }

/-- The timestamp `runCrawl` extracts for a commit,
`c.Commit.Author.GetDate().Time`. -/
def commitTimestampOf (c : RawCommit) : Nat :=
  commitAuthorGetDate (commitMetaAuthor c.commit)

/-- Building one `CommitInfo` in the `runCrawl` loop (main.go).  The field
expression `c.Commit.Author.GetDate()` evaluates the selector `c.Commit.Author`
unconditionally, which in Go dereferences `c.Commit` and panics when it is
nil; `GetDate` itself is a nil-receiver-safe accessor, so a nil
`c.Commit.Author` with non-nil `c.Commit` yields the zero timestamp instead
of panicking. -/
def buildCommitInfo (c : RawCommit) : Except GoPanic CommitInfo :=
  match c.commit with
  | none => Except.error GoPanic.nilDereference
  | some _ => Except.ok (commitInfoOf c)

/-- The `for _, c := range commits` loop of `runCrawl` building `commitInfos`
in input order (the in-place reversal comes afterwards). -/
def buildCommitInfos : List RawCommit → Except GoPanic (List CommitInfo)
  | [] => Except.ok []
  | c :: cs =>
    match buildCommitInfo c with
    | Except.error p => Except.error p
    | Except.ok i =>
      match buildCommitInfos cs with
      | Except.error p => Except.error p
      | Except.ok rest => Except.ok (i :: rest)

/-- Model of `*github.RepositoryRelease` as used here: `GetTagName()` (empty
string standing for a nil `TagName`) and `GetPublishedAt().Time`. -/
structure Release where
  tagName : String
  publishedAt : Nat
  deriving DecidableEq

/-- Model of `checkLatestRelease` (main.go).  The argument is the outcome of
the `GetLatestRelease` remote call: an error, or a possibly-nil release
pointer.  The Go function returns `(false, nil)` when `err != nil`, when
`rel == nil`, or when `rel.GetTagName() == ""`, and `(true, rel)` otherwise;
the `(bool, *RepositoryRelease)` pair is modelled as an `Option`. -/
def checkLatestRelease : Except Unit (Option Release) → Option Release
  | Except.error _ => none
  | Except.ok none => none
  | Except.ok (some rel) => if rel.tagName = "" then none else some rel

/-- Model of the repository-detail lookup result (`client.Repositories.Get`):
the two fields `runCrawl` reads. -/
structure RepoDetail where
  defaultBranch : String
  htmlURL : String
  deriving DecidableEq

/-- Model of the source's `RepositoryData` struct (main.go), the persisted
Repository Snapshot. -/
structure RepositoryData where
  owner : String
  name : String
  defaultBranch : String
  latestReleaseTag : String
  latestReleaseTime : Nat
  unreleasedCommits : List CommitInfo
  repositoryURL : String
  deriving DecidableEq

/-- The snapshot `runCrawl` persists for a repository: release tag and
publish time, default branch and URL from the detail lookup, and the
commit list built in input order and then reversed (newest first). -/
def mkSnapshot (owner name : String) (rel : Release) (detail : RepoDetail)
    (rs : List RawCommit) : RepositoryData :=
  { owner := owner
    name := name
    defaultBranch := detail.defaultBranch
    latestReleaseTag := rel.tagName
    latestReleaseTime := rel.publishedAt
    unreleasedCommits := (rs.map commitInfoOf).reverse
    repositoryURL := detail.htmlURL }

/-- The remote environment one crawl runs against: the enumerated repository
names and, per repository name, the outcomes of the release lookup, the
detail lookup, the commit comparison (as collected by `compareAllCommits`),
and whether the snapshot write succeeds; plus whether the final timestamp
write succeeds. -/
structure Remote where
  repos : List String
  latestReleaseResult : String → Except Unit (Option Release)
  repoDetail : String → Except Unit RepoDetail
  compareResult : String → Except Unit (List RawCommit)
  writeOk : String → Bool
  timestampWriteOk : Bool

/-- Terminal state of one repository in the crawl loop. -/
inductive RepoOutcome
  | processed
  | skippedNoRelease
  | failedDetail
  | failedCompare
  | failedWrite
  deriving DecidableEq

/-- One iteration of the `runCrawl` repository loop (main.go): release check
(skip on none), detail lookup (continue on error), commit comparison
(continue on error), commit-record construction (a Go panic aborts the whole
process), snapshot write (continue on error), success.  Returns the terminal
state, the snapshot written (if any), and the lines printed. -/
def processRepo (remote : Remote) (owner name : String) :
    Except GoPanic (RepoOutcome × Option RepositoryData × List String) :=
  match checkLatestRelease (remote.latestReleaseResult name) with
  | none =>
    Except.ok (RepoOutcome.skippedNoRelease, none,
      ["Skipping " ++ name ++ " (no releases)"])
  | some rel =>
    match remote.repoDetail name with
    | Except.error _ =>
      Except.ok (RepoOutcome.failedDetail, none, ["Error getting repo details"])
    | Except.ok detail =>
      match remote.compareResult name with
      | Except.error _ =>
        Except.ok (RepoOutcome.failedCompare, none, ["Error comparing commits"])
      | Except.ok rs =>
        match buildCommitInfos rs with
        | Except.error p => Except.error p
        | Except.ok infos =>
          let data : RepositoryData :=
            { owner := owner
              name := name
              defaultBranch := detail.defaultBranch
              latestReleaseTag := rel.tagName
              latestReleaseTime := rel.publishedAt
              unreleasedCommits := infos.reverse
              repositoryURL := detail.htmlURL }
          if remote.writeOk name then
            Except.ok (RepoOutcome.processed, some data, ["Saved commits"])
          else
            Except.ok (RepoOutcome.failedWrite, none, ["Error writing JSON"])

/-- The `runCrawl` repository loop over the enumerated names, accumulating
written snapshots (in write order), terminal states, the `processedCount`
counter, and the printed lines. -/
def crawlRepos (remote : Remote) (owner : String) :
    List String →
    Except GoPanic
      (List (String × RepositoryData) × List RepoOutcome × Nat × List String)
  | [] => Except.ok ([], [], 0, [])
  | name :: rest =>
    match processRepo remote owner name with
    | Except.error p => Except.error p
    | Except.ok (outcome, snap, lines) =>
      match crawlRepos remote owner rest with
      | Except.error p => Except.error p
      | Except.ok (snaps, outs, cnt, log) =>
        Except.ok
          ((match snap with
            | some s => (name, s) :: snaps
            | none => snaps),
           outcome :: outs,
           (if outcome = RepoOutcome.processed then 1 else 0) + cnt,
           lines ++ log)

/-- The line printed for the timestamp write at the end of `runCrawl`: a
warning on failure, a confirmation on success; either way the crawl
continues to its summary. -/
def timestampLine (ok : Bool) : String :=
  if ok then "Recorded crawl timestamp"
  else "Warning: failed to write crawl timestamp"

/-- Observable result of one crawl. -/
structure CrawlResult where
  snapshots : List (String × RepositoryData)
  outcomes : List RepoOutcome
  processedCount : Nat
  log : List String
  timestampWritten : Bool
  summary : String

/-- Model of `runCrawl` (main.go) after a successful enumeration: process
every repository in order, then attempt the timestamp write (non-fatal
either way), then print the final summary, which interpolates only
`processedCount`. -/
def runCrawl (remote : Remote) (owner : String) : Except GoPanic CrawlResult :=
  match crawlRepos remote owner remote.repos with
  | Except.error p => Except.error p
  | Except.ok (snaps, outs, cnt, log) =>
    Except.ok
      { snapshots := snaps
        outcomes := outs
        processedCount := cnt
        log := log ++ [timestampLine remote.timestampWriteOk]
        timestampWritten := remote.timestampWriteOk
        summary := "Crawl complete! Processed " ++ toString cnt ++
          " repositories with releases." }

/-- Number of `processed` terminal states, as counted by the
`processedCount` variable of `runCrawl`. -/
def countProcessed : List RepoOutcome → Nat
  | [] => 0
  | o :: rest =>
    (if o = RepoOutcome.processed then 1 else 0) + countProcessed rest

/-- Number of `skippedNoRelease` terminal states.  The Go code keeps no such
counter; this definition exists to state what the summary does and does not
report. -/
def countSkipped : List RepoOutcome → Nat
  | [] => 0
  | o :: rest =>
    (if o = RepoOutcome.skippedNoRelease then 1 else 0) + countSkipped rest

/-- The snapshot the crawl writes for repository `name`, if any, as a
function of that repository's remote interactions alone. -/
def snapshotFor (remote : Remote) (owner name : String) :
    Option (String × RepositoryData) :=
  match processRepo remote owner name with
  | Except.ok (_, some d, _) => some (name, d)
  | _ => none

/-- The terminal state of repository `name`, as a function of that
repository's remote interactions alone (arbitrary on a panic, which
`crawlRepos` propagates instead). -/
def outcomeFor (remote : Remote) (owner name : String) : RepoOutcome :=
  match processRepo remote owner name with
  | Except.ok (o, _, _) => o
  | Except.error _ => RepoOutcome.failedCompare

/-- The lines printed while processing repository `name`. -/
def logFor (remote : Remote) (owner name : String) : List String :=
  match processRepo remote owner name with
  | Except.ok (_, _, lines) => lines
  | Except.error _ => []

/-- A remote environment whose commit comparisons only deliver commits with
non-nil embedded metadata, so that building commit records cannot panic
(the precondition under which the Go loop is memory-safe). -/
def wfRemote (remote : Remote) : Prop :=
  ∀ name rs, remote.compareResult name = Except.ok rs →
    ∀ c ∈ rs, c.commit.isSome = true

/-- Fixture: a raw commit with platform login `alice` and a differing
metadata display name `Alice Smith`. -/
def wAlice : RawCommit :=
  { sha := some "a1"
    author := some { login := some "alice" }
    commit := some { author := some { name := some "Alice Smith", date := some 3 }
                     message := some "m1" }
    htmlURL := some "u1" }

/-- Fixture: a raw commit with no platform-linked author and metadata name
`Bob`. -/
def wBob : RawCommit :=
  { sha := some "b1"
    author := none
    commit := some { author := some { name := some "Bob", date := some 4 }
                     message := some "m2" }
    htmlURL := some "u2" }

/-- Fixture: a raw commit with neither a platform login nor a metadata
author name. -/
def wNoAuthor : RawCommit :=
  { sha := some "c1"
    author := none
    commit := some { author := none, message := some "m3" }
    htmlURL := some "u3" }

/-- Fixture: a raw commit with a platform-linked author, non-nil embedded
metadata, but a nil metadata author sub-object. -/
def commitAlice : RawCommit :=
  { sha := some "s1"
    author := some { login := some "alice" }
    commit := some { author := none, message := some "msg" }
    htmlURL := some "url" }

/-- Fixture: a raw commit with a platform-linked author but nil embedded
commit metadata. -/
def commitNilMeta : RawCommit :=
  { sha := some "s2"
    author := some { login := some "alice" }
    commit := none
    htmlURL := some "url2" }

/-- Fixture: a release with a non-empty tag. -/
def wRel : Release := { tagName := "v1", publishedAt := 5 }

/-- Fixture: a repository detail lookup result. -/
def wDetail : RepoDetail := { defaultBranch := "main", htmlURL := "ru" }

/-- Fixture: well-formed raw commit authored at instant 1. -/
def wCommitT1 : RawCommit :=
  { sha := some "h1"
    author := some { login := some "alice" }
    commit := some { author := some { name := some "A", date := some 1 }
                     message := some "c1" }
    htmlURL := some "w1" }

/-- Fixture: well-formed raw commit authored at instant 2. -/
def wCommitT2 : RawCommit :=
  { sha := some "h2"
    author := some { login := some "bob" }
    commit := some { author := some { name := some "B", date := some 2 }
                     message := some "c2" }
    htmlURL := some "w2" }

/-- Fixture: well-formed raw commit authored at instant 3. -/
def wCommitT3 : RawCommit :=
  { sha := some "h3"
    author := some { login := some "carol" }
    commit := some { author := some { name := some "C", date := some 3 }
                     message := some "c3" }
    htmlURL := some "w3" }

/-- Fixture: a remote with one repository whose comparison delivers three
commits timestamped 1 < 2 < 3 oldest-first. -/
def wC3Remote : Remote :=
  { repos := ["r"]
    latestReleaseResult := fun _ => Except.ok (some wRel)
    repoDetail := fun _ => Except.ok wDetail
    compareResult := fun _ => Except.ok [wCommitT1, wCommitT2, wCommitT3]
    writeOk := fun _ => true
    timestampWriteOk := true }

/-- Fixture: a remote with one repository that has no latest release. -/
def skipRemote : Remote :=
  { repos := ["a"]
    latestReleaseResult := fun _ => Except.ok none
    repoDetail := fun _ => Except.error ()
    compareResult := fun _ => Except.error ()
    writeOk := fun _ => false
    timestampWriteOk := true }

/-- Fixture: the same remote as `skipRemote` but with no repositories at
all, so a crawl over it skips nothing. -/
def emptyRemote : Remote := { skipRemote with repos := [] }

/-- Fixture: a remote with one repository that has a release but an empty
commit comparison. -/
def procRemote : Remote :=
  { repos := ["a"]
    latestReleaseResult := fun _ => Except.ok (some wRel)
    repoDetail := fun _ => Except.ok wDetail
    compareResult := fun _ => Except.ok []
    writeOk := fun _ => true
    timestampWriteOk := true }

/-- Fixture: a remote with one processable repository and one whose release
lookup fails, and a failing timestamp write. -/
def isoRemote : Remote :=
  { repos := ["a", "b"]
    latestReleaseResult := fun n => if n = "a" then Except.ok (some wRel)
      else Except.error ()
    repoDetail := fun _ => Except.ok wDetail
    compareResult := fun _ => Except.ok []
    writeOk := fun _ => true
    timestampWriteOk := false }

/-- Fixture: the crawl result of `skipRemote`, written out in full. -/
def wSkipResult : CrawlResult :=
  { snapshots := []
    outcomes := [RepoOutcome.skippedNoRelease]
    processedCount := 0
    log := ["Skipping " ++ "a" ++ " (no releases)", timestampLine true]
    timestampWritten := true
    summary := "Crawl complete! Processed " ++ toString 0 ++
      " repositories with releases." }

theorem pageItems_succ {α : Type} (items : List α) (P q : Nat) :
    pageItems items P (q + 1) = (items.drop (q * P)).take P := by
  have h : max (q + 1) 1 = q + 1 := Nat.max_eq_left (Nat.succ_le_succ (Nat.zero_le q))
  simp [pageItems, h]

theorem pageNext_succ {α : Type} (items : List α) (P q : Nat) :
    pageNext items P (q + 1) =
      if (q + 1) * P < items.length then q + 2 else 0 := by
  have h : max (q + 1) 1 = q + 1 := Nat.max_eq_left (Nat.succ_le_succ (Nat.zero_le q))
  simp [pageNext, h]

theorem take_append_page {α : Type} (items : List α) (P q : Nat) :
    items.take (q * P) ++ (items.drop (q * P)).take P =
      items.take ((q + 1) * P) := by
  rw [Nat.succ_mul, List.take_add]

theorem listLoop_page_zero {α : Type} (items : List α) (P L fuel : Nat)
    (acc : List α) :
    listLoop items P L (fuel + 1) 0 acc = listLoop items P L (fuel + 1) 1 acc := by
  simp [listLoop, pageItems, pageNext]

theorem listLoop_no_limit {α : Type} (items : List α) (P : Nat) :
    ∀ fuel q, 1 ≤ fuel → items.length ≤ (q + fuel) * P →
      listLoop items P 0 fuel (q + 1) (items.take (q * P)) = some items := by
  intro fuel
  induction fuel with
  | zero => intro q h _; omega
  | succ f ih =>
    intro q _ hlen
    simp only [listLoop]
    rw [pageItems_succ, pageNext_succ, take_append_page]
    rw [if_neg (fun h => absurd h.1 (Nat.lt_irrefl 0))]
    by_cases hc : (q + 1) * P < items.length
    · rw [if_pos hc, if_neg (by omega : ¬q + 2 = 0)]
      have hf : 1 ≤ f := by
        rcases Nat.eq_zero_or_pos f with h0 | h1
        · subst h0
          have : q + 1 = q + 0 + 1 := by omega
          rw [← this] at hlen
          omega
        · exact h1
      have hlen2 : items.length ≤ (q + 1 + f) * P := by
        have : q + 1 + f = q + (f + 1) := by omega
        rw [this]
        exact hlen
      exact ih (q + 1) hf hlen2
    · rw [if_neg hc, if_pos rfl]
      rw [List.take_of_length_le (Nat.le_of_not_lt hc)]

theorem listLoop_limit {α : Type} (items : List α) (P k : Nat)
    (hk : 0 < k) (hkle : k ≤ items.length) :
    ∀ fuel q, 1 ≤ fuel → q * P < k → items.length ≤ (q + fuel) * P →
      listLoop items P k fuel (q + 1) (items.take (q * P)) =
        some (items.take k) := by
  intro fuel
  induction fuel with
  | zero => intro q h _ _; omega
  | succ f ih =>
    intro q _ hqk hlen
    simp only [listLoop]
    rw [pageItems_succ, pageNext_succ, take_append_page]
    by_cases hck : k ≤ (q + 1) * P
    · rw [if_pos ⟨hk, by rw [List.length_take]; exact Nat.le_min.mpr ⟨hck, hkle⟩⟩]
      rw [List.take_take, Nat.min_eq_left hck]
    · have hck2 : (q + 1) * P < k := Nat.lt_of_not_le hck
      have hc : (q + 1) * P < items.length := Nat.lt_of_lt_of_le hck2 hkle
      rw [if_neg (fun h => absurd (Nat.le_trans h.2 (by
        rw [List.length_take]; exact Nat.min_le_left _ _)) hck)]
      rw [if_pos hc, if_neg (by omega : ¬q + 2 = 0)]
      have hf : 1 ≤ f := by
        rcases Nat.eq_zero_or_pos f with h0 | h1
        · subst h0
          have : q + 1 = q + 0 + 1 := by omega
          rw [← this] at hlen
          omega
        · exact h1
      have hlen2 : items.length ≤ (q + 1 + f) * P := by
        have : q + 1 + f = q + (f + 1) := by omega
        rw [this]
        exact hlen
      exact ih (q + 1) hf hck2 hlen2

theorem compareLoop_all {α : Type} (items : List α) (P : Nat) :
    ∀ fuel q, 1 ≤ fuel → items.length ≤ (q + fuel) * P →
      compareLoop items P fuel (q + 1) (items.take (q * P)) = some items := by
  intro fuel
  induction fuel with
  | zero => intro q h _; omega
  | succ f ih =>
    intro q _ hlen
    simp only [compareLoop]
    rw [pageItems_succ, pageNext_succ, take_append_page]
    by_cases hc : (q + 1) * P < items.length
    · have hchunk : ¬((items.drop (q * P)).take P).length < P := by
        rw [List.length_take, List.length_drop]
        have e1 : (q + 1) * P = q * P + P := Nat.succ_mul q P
        rw [e1] at hc
        generalize q * P = A at hc ⊢
        omega
      rw [if_pos hc]
      rw [if_neg (by
        intro h
        rcases h with h | h
        · omega
        · exact hchunk h)]
      have hf : 1 ≤ f := by
        rcases Nat.eq_zero_or_pos f with h0 | h1
        · subst h0
          have : q + 1 = q + 0 + 1 := by omega
          rw [← this] at hlen
          omega
        · exact h1
      have hlen2 : items.length ≤ (q + 1 + f) * P := by
        have : q + 1 + f = q + (f + 1) := by omega
        rw [this]
        exact hlen
      exact ih (q + 1) hf hlen2
    · rw [if_neg hc, if_pos (Or.inl rfl)]
      rw [List.take_of_length_le (Nat.le_of_not_lt hc)]

theorem pagesJoin_take {α : Type} (items : List α) (P : Nat) :
    ∀ pages, pagesJoin items P pages = items.take (pages * P) := by
  intro pages
  induction pages with
  | zero => simp [pagesJoin]
  | succ n ih =>
    rw [pagesJoin, List.range_succ, List.map_append, List.flatten_append]
    rw [pagesJoin] at ih
    rw [ih]
    simp only [List.map_cons, List.map_nil, List.flatten_cons, List.flatten_nil,
      List.append_nil]
    rw [pageItems_succ, take_append_page]

theorem fuel_bound {α : Type} (items : List α) (P : Nat) (hP : 1 ≤ P) :
    items.length ≤ (0 + (items.length + 1)) * P := by
  rw [Nat.zero_add]
  calc items.length ≤ (items.length + 1) * 1 := by omega
    _ ≤ (items.length + 1) * P := Nat.mul_le_mul_left _ hP

/-- C1: for a simulated paginated source whose full item list splits into `N`
pages of exactly `P` items each (so the last page is exactly full), both
`listPublicRepos` (with no limit) and `compareAllCommits` stop after finitely
many page requests and return precisely the concatenation of all pages in
page order — every item exactly once, none duplicated, none missing. -/
theorem pagination_complete {α : Type} (items : List α) (P N : Nat)
    (hP : 1 ≤ P) (hlen : items.length = N * P) :
    pagesJoin items P N = items ∧
    listPublicRepos items P 0 = some items ∧
    compareAllCommits items P = some items := by
  refine ⟨?_, ?_, ?_⟩
  · rw [pagesJoin_take, ← hlen]
    exact List.take_length _
  · rw [listPublicRepos, listLoop_page_zero]
    simpa using listLoop_no_limit items P (items.length + 1) 0 (by omega)
      (fuel_bound items P hP)
  · rw [compareAllCommits]
    simpa using compareLoop_all items P (items.length + 1) 0 (by omega)
      (fuel_bound items P hP)

/-- Witness for C1 at a concrete source: 2 pages of page size 2. -/
theorem pagination_complete_witness :
    pagesJoin [10, 20, 30, 40] 2 2 = [10, 20, 30, 40] ∧
    listPublicRepos [10, 20, 30, 40] 2 0 = some [10, 20, 30, 40] ∧
    compareAllCommits [10, 20, 30, 40] 2 = some [10, 20, 30, 40] :=
  pagination_complete [10, 20, 30, 40] 2 2 (by decide) (by decide)

/-- C2: with a positive limit `k` smaller than the total number of available
repositories, `listPublicRepos` returns exactly the first `k` items (a list
of length `k` that is a prefix of the unlimited result), and with limit 0 it
returns all items. -/
theorem limit_truncation {α : Type} (items : List α) (P k : Nat)
    (hP : 1 ≤ P) (hk : 0 < k) (hkl : k < items.length) :
    listPublicRepos items P k = some (items.take k) ∧
    (items.take k).length = k ∧
    listPublicRepos items P 0 = some items ∧
    items.take k <+: items := by
  refine ⟨?_, ?_, ?_, ?_⟩
  · rw [listPublicRepos, listLoop_page_zero]
    simpa using listLoop_limit items P k hk (Nat.le_of_lt hkl)
      (items.length + 1) 0 (by omega) (by simpa using hk) (fuel_bound items P hP)
  · rw [List.length_take]
    omega
  · rw [listPublicRepos, listLoop_page_zero]
    simpa using listLoop_no_limit items P (items.length + 1) 0 (by omega)
      (fuel_bound items P hP)
  · exact ⟨items.drop k, List.take_append_drop k items⟩

/-- Witness for C2: limit 3 against 5 available items, page size 2. -/
theorem limit_truncation_witness :
    listPublicRepos [1, 2, 3, 4, 5] 2 3 = some ([1, 2, 3, 4, 5].take 3) ∧
    ([1, 2, 3, 4, 5].take 3).length = 3 ∧
    listPublicRepos [1, 2, 3, 4, 5] 2 0 = some [1, 2, 3, 4, 5] ∧
    [1, 2, 3, 4, 5].take 3 <+: [1, 2, 3, 4, 5] :=
  limit_truncation [1, 2, 3, 4, 5] 2 3 (by decide) (by decide) (by decide)

theorem buildCommitInfo_ok (c : RawCommit) (h : c.commit.isSome = true) :
    buildCommitInfo c = Except.ok (commitInfoOf c) := by
  cases hm : c.commit with
  | none => rw [hm] at h; simp at h
  | some m => simp [buildCommitInfo, hm]

theorem buildCommitInfos_ok (cs : List RawCommit)
    (h : ∀ c ∈ cs, c.commit.isSome = true) :
    buildCommitInfos cs = Except.ok (cs.map commitInfoOf) := by
  induction cs with
  | nil => rfl
  | cons c rest ih =>
    rw [List.map_cons]
    simp only [buildCommitInfos,
      buildCommitInfo_ok c (h c (List.mem_cons_self c rest)),
      ih (fun x hx => h x (List.mem_cons_of_mem c hx))]

theorem map_timestamp_commitInfoOf (cs : List RawCommit) :
    (cs.map commitInfoOf).map CommitInfo.timestamp = cs.map commitTimestampOf := by
  rw [List.map_map]
  rfl

theorem processRepo_skip (remote : Remote) (owner name : String)
    (h : checkLatestRelease (remote.latestReleaseResult name) = none) :
    processRepo remote owner name =
      Except.ok (RepoOutcome.skippedNoRelease, none,
        ["Skipping " ++ name ++ " (no releases)"]) := by
  simp only [processRepo, h]

theorem processRepo_processed (remote : Remote) (owner name : String)
    (rel : Release) (detail : RepoDetail) (rs : List RawCommit)
    (hrel : checkLatestRelease (remote.latestReleaseResult name) = some rel)
    (hdet : remote.repoDetail name = Except.ok detail)
    (hcmp : remote.compareResult name = Except.ok rs)
    (hwf : ∀ c ∈ rs, c.commit.isSome = true)
    (hw : remote.writeOk name = true) :
    processRepo remote owner name =
      Except.ok (RepoOutcome.processed,
        some (mkSnapshot owner name rel detail rs), ["Saved commits"]) := by
  simp only [processRepo, hrel, hdet, hcmp, buildCommitInfos_ok rs hwf, hw,
    if_true, mkSnapshot]

theorem processRepo_snapshot_release (remote : Remote) (owner name : String)
    (o : RepoOutcome) (d : RepositoryData) (lines : List String)
    (h : processRepo remote owner name = Except.ok (o, some d, lines)) :
    (checkLatestRelease (remote.latestReleaseResult name)).isSome = true := by
  cases hrel : checkLatestRelease (remote.latestReleaseResult name) with
  | none =>
    rw [processRepo_skip remote owner name hrel] at h
    simp at h
  | some rel => rfl

theorem processRepo_total (remote : Remote) (owner name : String)
    (hwf : wfRemote remote) :
    ∃ o snap lines,
      processRepo remote owner name = Except.ok (o, snap, lines) := by
  cases hrel : checkLatestRelease (remote.latestReleaseResult name) with
  | none => exact ⟨_, _, _, processRepo_skip remote owner name hrel⟩
  | some rel =>
    cases hdet : remote.repoDetail name with
    | error e =>
      exact ⟨RepoOutcome.failedDetail, none, ["Error getting repo details"],
        by simp only [processRepo, hrel, hdet]⟩
    | ok detail =>
      cases hcmp : remote.compareResult name with
      | error e =>
        exact ⟨RepoOutcome.failedCompare, none, ["Error comparing commits"],
          by simp only [processRepo, hrel, hdet, hcmp]⟩
      | ok rs =>
        have hb := buildCommitInfos_ok rs (hwf name rs hcmp)
        cases hw : remote.writeOk name with
        | true =>
          exact ⟨_, _, _, processRepo_processed remote owner name rel detail rs
            hrel hdet hcmp (hwf name rs hcmp) hw⟩
        | false =>
          exact ⟨RepoOutcome.failedWrite, none, ["Error writing JSON"],
            by simp [processRepo, hrel, hdet, hcmp, hb, hw]⟩

theorem crawlRepos_eq (remote : Remote) (owner : String) (hwf : wfRemote remote) :
    ∀ names, crawlRepos remote owner names =
      Except.ok (names.filterMap (snapshotFor remote owner),
        names.map (outcomeFor remote owner),
        countProcessed (names.map (outcomeFor remote owner)),
        (names.map (logFor remote owner)).flatten) := by
  intro names
  induction names with
  | nil => rfl
  | cons name rest ih =>
    obtain ⟨o, snap, lines, hp⟩ := processRepo_total remote owner name hwf
    simp only [crawlRepos, hp, ih, List.filterMap_cons, List.map_cons,
      List.flatten_cons, snapshotFor, outcomeFor, logFor, countProcessed]
    cases snap with
    | none => rfl
    | some s => rfl

theorem crawlRepos_count (remote : Remote) (owner : String) :
    ∀ names snaps outs cnt log,
      crawlRepos remote owner names = Except.ok (snaps, outs, cnt, log) →
      cnt = countProcessed outs := by
  intro names
  induction names with
  | nil =>
    intro snaps outs cnt log h
    simp only [crawlRepos, Except.ok.injEq, Prod.mk.injEq] at h
    obtain ⟨-, h2, h3, -⟩ := h
    subst h2; subst h3; rfl
  | cons name rest ih =>
    intro snaps outs cnt log h
    simp only [crawlRepos] at h
    cases hp : processRepo remote owner name with
    | error p => rw [hp] at h; simp at h
    | ok trip =>
      obtain ⟨o, snap, lines⟩ := trip
      rw [hp] at h
      cases hc : crawlRepos remote owner rest with
      | error p => rw [hc] at h; simp at h
      | ok quad =>
        obtain ⟨snaps2, outs2, cnt2, log2⟩ := quad
        rw [hc] at h
        simp only [Except.ok.injEq, Prod.mk.injEq] at h
        obtain ⟨-, h2, h3, -⟩ := h
        subst h2; subst h3
        rw [countProcessed, ih snaps2 outs2 cnt2 log2 hc]

theorem crawlRepos_mem_release (remote : Remote) (owner : String) :
    ∀ names snaps outs cnt log n d,
      crawlRepos remote owner names = Except.ok (snaps, outs, cnt, log) →
      (n, d) ∈ snaps →
      (checkLatestRelease (remote.latestReleaseResult n)).isSome = true := by
  intro names
  induction names with
  | nil =>
    intro snaps outs cnt log n d h hm
    simp only [crawlRepos, Except.ok.injEq, Prod.mk.injEq] at h
    obtain ⟨h1, -, -, -⟩ := h
    subst h1
    simp at hm
  | cons name rest ih =>
    intro snaps outs cnt log n d h hm
    simp only [crawlRepos] at h
    cases hp : processRepo remote owner name with
    | error p => rw [hp] at h; simp at h
    | ok trip =>
      obtain ⟨o, snap, lines⟩ := trip
      rw [hp] at h
      cases hc : crawlRepos remote owner rest with
      | error p => rw [hc] at h; simp at h
      | ok quad =>
        obtain ⟨snaps2, outs2, cnt2, log2⟩ := quad
        rw [hc] at h
        simp only [Except.ok.injEq, Prod.mk.injEq] at h
        obtain ⟨h1, -, -, -⟩ := h
        cases snap with
        | none =>
          subst h1
          exact ih snaps2 outs2 cnt2 log2 n d hc hm
        | some s =>
          subst h1
          rcases List.mem_cons.mp hm with heq | hmem
          · have hn : n = name := congrArg Prod.fst heq
            subst hn
            have hd : s = d := congrArg Prod.snd heq.symm
            subst hd
            exact processRepo_snapshot_release remote owner n o s lines hp
          · exact ih snaps2 outs2 cnt2 log2 n d hc hmem

theorem crawlRepos_mem_processed (remote : Remote) (owner : String) :
    ∀ names snaps outs cnt log n o d lines,
      crawlRepos remote owner names = Except.ok (snaps, outs, cnt, log) →
      n ∈ names →
      processRepo remote owner n = Except.ok (o, some d, lines) →
      (n, d) ∈ snaps := by
  intro names
  induction names with
  | nil => intro _ _ _ _ _ _ _ _ _ hn _; simp at hn
  | cons name rest ih =>
    intro snaps outs cnt log n o d lines h hn hpn
    simp only [crawlRepos] at h
    cases hp : processRepo remote owner name with
    | error p => rw [hp] at h; simp at h
    | ok trip =>
      obtain ⟨o2, snap2, lines2⟩ := trip
      rw [hp] at h
      cases hc : crawlRepos remote owner rest with
      | error p => rw [hc] at h; simp at h
      | ok quad =>
        obtain ⟨snaps2, outs2, cnt2, log2⟩ := quad
        rw [hc] at h
        simp only [Except.ok.injEq, Prod.mk.injEq] at h
        obtain ⟨h1, -, -, -⟩ := h
        rcases List.mem_cons.mp hn with heq | hmem
        · subst heq
          rw [hpn] at hp
          simp only [Except.ok.injEq, Prod.mk.injEq] at hp
          obtain ⟨-, hsnap, -⟩ := hp
          subst h1
          rw [← hsnap]
          exact List.mem_cons_self (n, d) snaps2
        · have hmem2 := ih snaps2 outs2 cnt2 log2 n o d lines hc hmem hpn
          subst h1
          cases snap2 with
          | none => exact hmem2
          | some s => exact List.mem_cons_of_mem (name, s) hmem2

theorem crawlRepos_mem_log (remote : Remote) (owner : String) :
    ∀ names snaps outs cnt log n o snap lines,
      crawlRepos remote owner names = Except.ok (snaps, outs, cnt, log) →
      n ∈ names →
      processRepo remote owner n = Except.ok (o, snap, lines) →
      ∀ x ∈ lines, x ∈ log := by
  intro names
  induction names with
  | nil => intro _ _ _ _ _ _ _ _ _ hn _; simp at hn
  | cons name rest ih =>
    intro snaps outs cnt log n o snap lines h hn hpn
    simp only [crawlRepos] at h
    cases hp : processRepo remote owner name with
    | error p => rw [hp] at h; simp at h
    | ok trip =>
      obtain ⟨o2, snap2, lines2⟩ := trip
      rw [hp] at h
      cases hc : crawlRepos remote owner rest with
      | error p => rw [hc] at h; simp at h
      | ok quad =>
        obtain ⟨snaps2, outs2, cnt2, log2⟩ := quad
        rw [hc] at h
        simp only [Except.ok.injEq, Prod.mk.injEq] at h
        obtain ⟨-, -, -, h4⟩ := h
        intro x hx
        rcases List.mem_cons.mp hn with heq | hmem
        · subst heq
          rw [hpn] at hp
          simp only [Except.ok.injEq, Prod.mk.injEq] at hp
          obtain ⟨-, -, hlines⟩ := hp
          subst h4
          exact List.mem_append_left log2 (hlines ▸ hx)
        · subst h4
          exact List.mem_append_right lines2
            (ih snaps2 outs2 cnt2 log2 n o snap lines hc hmem hpn x hx)

theorem runCrawl_ok (remote : Remote) (owner : String) (res : CrawlResult)
    (h : runCrawl remote owner = Except.ok res) :
    ∃ snaps outs cnt log,
      crawlRepos remote owner remote.repos = Except.ok (snaps, outs, cnt, log) ∧
      res.snapshots = snaps ∧ res.outcomes = outs ∧ res.processedCount = cnt ∧
      res.log = log ++ [timestampLine remote.timestampWriteOk] ∧
      res.timestampWritten = remote.timestampWriteOk ∧
      res.summary = "Crawl complete! Processed " ++ toString cnt ++
        " repositories with releases." := by
  unfold runCrawl at h
  cases hc : crawlRepos remote owner remote.repos with
  | error p => rw [hc] at h; simp at h
  | ok quad =>
    obtain ⟨snaps, outs, cnt, log⟩ := quad
    rw [hc] at h
    simp only [Except.ok.injEq] at h
    subst h
    exact ⟨snaps, outs, cnt, log, rfl, rfl, rfl, rfl, rfl, rfl, rfl⟩

theorem crawlRepos_timestamp_irrel (remote : Remote) (owner : String)
    (b : Bool) :
    ∀ names, crawlRepos { remote with timestampWriteOk := b } owner names =
      crawlRepos remote owner names := by
  intro names
  induction names with
  | nil => rfl
  | cons name rest ih =>
    have hp : processRepo { remote with timestampWriteOk := b } owner name =
        processRepo remote owner name := rfl
    simp only [crawlRepos, hp, ih]

theorem runCrawl_timestamp_irrel (remote : Remote) (owner : String) (b : Bool)
    (res : CrawlResult) (h : runCrawl remote owner = Except.ok res) :
    ∃ res2, runCrawl { remote with timestampWriteOk := b } owner =
        Except.ok res2 ∧
      res2.snapshots = res.snapshots ∧ res2.outcomes = res.outcomes ∧
      res2.processedCount = res.processedCount ∧ res2.timestampWritten = b := by
  obtain ⟨snaps, outs, cnt, log, hc, h1, h2, h3, -, -, -⟩ :=
    runCrawl_ok remote owner res h
  have hc2 : crawlRepos { remote with timestampWriteOk := b } owner
      ({ remote with timestampWriteOk := b } : Remote).repos =
      Except.ok (snaps, outs, cnt, log) := by
    show crawlRepos { remote with timestampWriteOk := b } owner remote.repos = _
    rw [crawlRepos_timestamp_irrel]
    exact hc
  refine ⟨{ snapshots := snaps, outcomes := outs, processedCount := cnt,
            log := log ++ [timestampLine b], timestampWritten := b,
            summary := "Crawl complete! Processed " ++ toString cnt ++
              " repositories with releases." }, ?_, ?_, ?_, ?_, rfl⟩
  · unfold runCrawl
    rw [hc2]
  · exact h1.symm
  · exact h2.symm
  · exact h3.symm

/-- C4: author resolution is first-match-wins — a non-empty platform login
wins; otherwise a non-empty metadata display name wins; otherwise the
literal `"unknown"` is used.  The accessors return `""` exactly when the
pointer is nil or the field is nil/empty, so the three hypotheses cover the
three precedence levels. -/
theorem author_precedence (c : RawCommit) :
    (userGetLogin c.author ≠ "" → resolveAuthor c = userGetLogin c.author) ∧
    (userGetLogin c.author = "" →
      commitAuthorGetName (commitMetaAuthor c.commit) ≠ "" →
      resolveAuthor c = commitAuthorGetName (commitMetaAuthor c.commit)) ∧
    (userGetLogin c.author = "" →
      commitAuthorGetName (commitMetaAuthor c.commit) = "" →
      resolveAuthor c = "unknown") := by
  refine ⟨?_, ?_, ?_⟩
  · intro h
    have hs : c.author.isSome = true := by
      cases ha : c.author with
      | none => rw [ha] at h; simp [userGetLogin] at h
      | some u => rfl
    rw [resolveAuthor, if_pos ⟨hs, h⟩]
  · intro h1 h2
    have hma : (commitMetaAuthor c.commit).isSome = true := by
      cases hm : commitMetaAuthor c.commit with
      | none => rw [hm] at h2; simp [commitAuthorGetName] at h2
      | some a => rfl
    have hcs : c.commit.isSome = true := by
      cases hcm : c.commit with
      | none => rw [hcm] at hma; simp [commitMetaAuthor] at hma
      | some m => rfl
    rw [resolveAuthor, if_neg (fun hh => hh.2 h1), if_pos ⟨hcs, hma, h2⟩]
  · intro h1 h2
    rw [resolveAuthor, if_neg (fun hh => hh.2 h1), if_neg (fun hh => hh.2.2 h2)]

/-- Witness for C4 at the claim's three concrete commits: login `alice` with
metadata name `Alice Smith` resolves to `alice`; metadata name `Bob` alone
resolves to `Bob`; neither resolves to `unknown`. -/
theorem author_precedence_witness :
    resolveAuthor wAlice = "alice" ∧ resolveAuthor wBob = "Bob" ∧
    resolveAuthor wNoAuthor = "unknown" :=
  ⟨((author_precedence wAlice).1 (by decide)).trans (by decide),
   ((author_precedence wBob).2.1 (by decide) (by decide)).trans (by decide),
   (author_precedence wNoAuthor).2.2 (by decide) (by decide)⟩

/-- C6: `checkLatestRelease` yields `none` — not an error (its return type
has no error case, matching the Go `(bool, *RepositoryRelease)` signature) —
when the remote call fails, when the remote reports no release, and when the
tag name is empty; and it yields `some` exactly when the call succeeds with
a non-empty tag name. -/
theorem release_resolution (r : Except Unit (Option Release)) :
    (r = Except.error () → checkLatestRelease r = none) ∧
    (r = Except.ok none → checkLatestRelease r = none) ∧
    (∀ rel, r = Except.ok (some rel) → rel.tagName = "" →
      checkLatestRelease r = none) ∧
    (∀ rel, checkLatestRelease r = some rel ↔
      r = Except.ok (some rel) ∧ rel.tagName ≠ "") := by
  refine ⟨?_, ?_, ?_, ?_⟩
  · intro h; subst h; rfl
  · intro h; subst h; rfl
  · intro rel h ht; subst h; simp [checkLatestRelease, ht]
  · intro rel
    constructor
    · intro h
      cases r with
      | error e => simp [checkLatestRelease] at h
      | ok o =>
        cases o with
        | none => simp [checkLatestRelease] at h
        | some rel2 =>
          by_cases ht : rel2.tagName = ""
          · simp [checkLatestRelease, ht] at h
          · simp [checkLatestRelease, ht] at h
            subst h
            exact ⟨rfl, ht⟩
    · rintro ⟨h1, h2⟩
      subst h1
      simp [checkLatestRelease, h2]

/-- Witness for C6: a successful call with tag `v1` resolves to `some`; a
failed call and a nil release resolve to `none`. -/
theorem release_resolution_witness :
    checkLatestRelease (Except.ok (some wRel)) = some wRel ∧
    checkLatestRelease (Except.error ()) = none ∧
    checkLatestRelease (Except.ok none) = none :=
  ⟨((release_resolution (Except.ok (some wRel))).2.2.2 wRel).mpr ⟨rfl, by decide⟩,
   (release_resolution (Except.error ())).1 rfl,
   (release_resolution (Except.ok none)).2.1 rfl⟩

/-- C10 counterexample: a raw commit with a platform-linked author, non-nil
embedded metadata and a *nil metadata author sub-object* does **not** make
the per-commit mapping panic, contrary to the claim's "(or a nil metadata
author)" and to its claimed precondition requiring the author sub-object to
be non-nil: `GetDate` is a nil-receiver-safe accessor, so the record is
built with the zero timestamp. -/
theorem commit_mapping_cx :
    commitAlice.author.isSome = true ∧
    commitAlice.commit.isSome = true ∧
    commitMetaAuthor commitAlice.commit = none ∧
    buildCommitInfo commitAlice = Except.ok (commitInfoOf commitAlice) ∧
    (commitInfoOf commitAlice).timestamp = 0 :=
  ⟨rfl, rfl, rfl, rfl, rfl⟩

/-- C10 amended: the per-commit mapping is total exactly when the embedded
commit metadata is non-nil — the selector `c.Commit.Author` in the timestamp
extraction panics on nil metadata, while a nil author sub-object is handled
by `GetDate`'s nil-receiver guard; under the non-nil-metadata precondition
every commit yields exactly one record. -/
theorem commit_mapping_totality (c : RawCommit) :
    (c.commit = none → buildCommitInfo c = Except.error GoPanic.nilDereference) ∧
    (c.commit.isSome = true → buildCommitInfo c = Except.ok (commitInfoOf c)) ∧
    ((∃ r, buildCommitInfo c = Except.ok r) ↔ c.commit.isSome = true) := by
  refine ⟨?_, ?_, ?_⟩
  · intro h; simp [buildCommitInfo, h]
  · intro h
    cases hm : c.commit with
    | none => rw [hm] at h; simp at h
    | some m => simp [buildCommitInfo, hm]
  · constructor
    · rintro ⟨r, hr⟩
      cases hm : c.commit with
      | none => simp [buildCommitInfo, hm] at hr
      | some m => rfl
    · intro h
      cases hm : c.commit with
      | none => rw [hm] at h; simp at h
      | some m => exact ⟨commitInfoOf c, by simp [buildCommitInfo, hm]⟩

/-- Witness for C10 (amended): nil embedded metadata panics even with a
platform-linked author present; non-nil metadata yields exactly the record. -/
theorem commit_mapping_totality_witness :
    buildCommitInfo commitNilMeta = Except.error GoPanic.nilDereference ∧
    buildCommitInfo commitAlice = Except.ok (commitInfoOf commitAlice) :=
  ⟨(commit_mapping_totality commitNilMeta).1 rfl,
   (commit_mapping_totality commitAlice).2.1 rfl⟩

/-- C3: the normalization step reverses the oldest-first raw commit sequence,
so the persisted snapshot's commit list is newest-first — it equals the
mapped commits reversed, its timestamp sequence is the reverse of the input
timestamp sequence, that sequence is non-increasing whenever the input was
non-decreasing, and index 0 is the record of the last (most recent) raw
commit. -/
theorem normalize_newest_first (remote : Remote) (owner name : String)
    (rel : Release) (detail : RepoDetail) (rs : List RawCommit)
    (hrel : checkLatestRelease (remote.latestReleaseResult name) = some rel)
    (hdet : remote.repoDetail name = Except.ok detail)
    (hcmp : remote.compareResult name = Except.ok rs)
    (hw : remote.writeOk name = true)
    (hwf : ∀ c ∈ rs, c.commit.isSome = true)
    (hord : List.Pairwise (· ≤ ·) (rs.map commitTimestampOf)) :
    processRepo remote owner name =
      Except.ok (RepoOutcome.processed,
        some (mkSnapshot owner name rel detail rs), ["Saved commits"]) ∧
    (mkSnapshot owner name rel detail rs).unreleasedCommits =
      (rs.map commitInfoOf).reverse ∧
    (mkSnapshot owner name rel detail rs).unreleasedCommits.map
        CommitInfo.timestamp = (rs.map commitTimestampOf).reverse ∧
    List.Pairwise (· ≥ ·)
      ((mkSnapshot owner name rel detail rs).unreleasedCommits.map
        CommitInfo.timestamp) ∧
    (mkSnapshot owner name rel detail rs).unreleasedCommits.head? =
      rs.getLast?.map commitInfoOf := by
  refine ⟨processRepo_processed remote owner name rel detail rs hrel hdet hcmp
    hwf hw, rfl, ?_, ?_, ?_⟩
  · show ((rs.map commitInfoOf).reverse).map CommitInfo.timestamp = _
    rw [List.map_reverse, map_timestamp_commitInfoOf]
  · show List.Pairwise (· ≥ ·)
      (((rs.map commitInfoOf).reverse).map CommitInfo.timestamp)
    rw [List.map_reverse, map_timestamp_commitInfoOf]
    exact List.pairwise_reverse.mpr hord
  · show ((rs.map commitInfoOf).reverse).head? = _
    rw [List.head?_reverse, List.getLast?_map]

/-- Witness for C3: three commits timestamped 1 < 2 < 3 delivered
oldest-first are persisted newest-first. -/
theorem normalize_newest_first_witness :
    processRepo wC3Remote "o" "r" =
      Except.ok (RepoOutcome.processed,
        some (mkSnapshot "o" "r" wRel wDetail [wCommitT1, wCommitT2, wCommitT3]),
        ["Saved commits"]) ∧
    (mkSnapshot "o" "r" wRel wDetail
        [wCommitT1, wCommitT2, wCommitT3]).unreleasedCommits =
      ([wCommitT1, wCommitT2, wCommitT3].map commitInfoOf).reverse ∧
    (mkSnapshot "o" "r" wRel wDetail
        [wCommitT1, wCommitT2, wCommitT3]).unreleasedCommits.map
        CommitInfo.timestamp =
      ([wCommitT1, wCommitT2, wCommitT3].map commitTimestampOf).reverse ∧
    List.Pairwise (· ≥ ·)
      ((mkSnapshot "o" "r" wRel wDetail
        [wCommitT1, wCommitT2, wCommitT3]).unreleasedCommits.map
        CommitInfo.timestamp) ∧
    (mkSnapshot "o" "r" wRel wDetail
        [wCommitT1, wCommitT2, wCommitT3]).unreleasedCommits.head? =
      [wCommitT1, wCommitT2, wCommitT3].getLast?.map commitInfoOf :=
  normalize_newest_first wC3Remote "o" "r" wRel wDetail
    [wCommitT1, wCommitT2, wCommitT3] (by decide) rfl rfl rfl
    (by decide) (by decide)

/-- C5: a repository whose release resolution yields none is skipped
entirely — its terminal state is the skip state (not processed, not one of
the failure states), no snapshot record is written for it anywhere in the
crawl, and the processed counter counts exactly the processed terminal
states. -/
theorem skip_on_no_release (remote : Remote) (owner name : String)
    (h : checkLatestRelease (remote.latestReleaseResult name) = none) :
    processRepo remote owner name =
      Except.ok (RepoOutcome.skippedNoRelease, none,
        ["Skipping " ++ name ++ " (no releases)"]) ∧
    (∀ res, runCrawl remote owner = Except.ok res →
      (∀ d, (name, d) ∉ res.snapshots) ∧
      res.processedCount = countProcessed res.outcomes) := by
  refine ⟨processRepo_skip remote owner name h, ?_⟩
  intro res hres
  obtain ⟨snaps, outs, cnt, log, hc, h1, h2, h3, -, -, -⟩ :=
    runCrawl_ok remote owner res hres
  constructor
  · intro d hd
    rw [h1] at hd
    have hsome := crawlRepos_mem_release remote owner remote.repos snaps outs
      cnt log name d hc hd
    rw [h] at hsome
    simp at hsome
  · rw [h3, h2]
    exact crawlRepos_count remote owner remote.repos snaps outs cnt log hc

/-- Witness for C5 at a concrete remote whose single repository has no
release. -/
theorem skip_on_no_release_witness :
    processRepo skipRemote "o" "a" =
      Except.ok (RepoOutcome.skippedNoRelease, none,
        ["Skipping " ++ "a" ++ " (no releases)"]) ∧
    (∀ res, runCrawl skipRemote "o" = Except.ok res →
      (∀ d, ("a", d) ∉ res.snapshots) ∧
      res.processedCount = countProcessed res.outcomes) :=
  skip_on_no_release skipRemote "o" "a" rfl

/-- C7: when the delivered commits satisfy the memory-safety precondition,
no per-repository failure aborts the crawl — the crawl completes with one
terminal state per enumerated repository, the written snapshots are exactly
the per-repository results joined in order (so one repository's failure
cannot affect another's snapshot), the timestamp write is attempted after
all repositories, and flipping the timestamp write's success leaves the
snapshots, terminal states and processed count untouched. -/
theorem crawl_failure_isolation (remote : Remote) (owner : String)
    (hwf : wfRemote remote) :
    ∃ res, runCrawl remote owner = Except.ok res ∧
      res.outcomes.length = remote.repos.length ∧
      res.snapshots = remote.repos.filterMap (snapshotFor remote owner) ∧
      res.timestampWritten = remote.timestampWriteOk ∧
      res.processedCount = countProcessed res.outcomes ∧
      (∀ b, ∃ res2, runCrawl { remote with timestampWriteOk := b } owner =
          Except.ok res2 ∧
        res2.snapshots = res.snapshots ∧ res2.outcomes = res.outcomes ∧
        res2.processedCount = res.processedCount ∧
        res2.timestampWritten = b) := by
  have hc := crawlRepos_eq remote owner hwf remote.repos
  have hrun : runCrawl remote owner = Except.ok
      { snapshots := remote.repos.filterMap (snapshotFor remote owner)
        outcomes := remote.repos.map (outcomeFor remote owner)
        processedCount :=
          countProcessed (remote.repos.map (outcomeFor remote owner))
        log := (remote.repos.map (logFor remote owner)).flatten ++
          [timestampLine remote.timestampWriteOk]
        timestampWritten := remote.timestampWriteOk
        summary := "Crawl complete! Processed " ++
          toString (countProcessed (remote.repos.map (outcomeFor remote owner)))
          ++ " repositories with releases." } := by
    unfold runCrawl
    rw [hc]
  refine ⟨_, hrun, ?_, rfl, rfl, rfl, ?_⟩
  · simp
  · intro b
    exact runCrawl_timestamp_irrel remote owner b _ hrun

/-- Witness for C7 at a remote with one processable repository, one whose
release lookup fails, and a failing timestamp write. -/
theorem crawl_failure_isolation_witness :
    ∃ res, runCrawl isoRemote "o" = Except.ok res ∧
      res.outcomes.length = isoRemote.repos.length ∧
      res.snapshots = isoRemote.repos.filterMap (snapshotFor isoRemote "o") ∧
      res.timestampWritten = isoRemote.timestampWriteOk ∧
      res.processedCount = countProcessed res.outcomes ∧
      (∀ b, ∃ res2, runCrawl { isoRemote with timestampWriteOk := b } "o" =
          Except.ok res2 ∧
        res2.snapshots = res.snapshots ∧ res2.outcomes = res.outcomes ∧
        res2.processedCount = res.processedCount ∧
        res2.timestampWritten = b) :=
  crawl_failure_isolation isoRemote "o" (by
    intro n rs hcmp c hcc
    have hrs : ([] : List RawCommit) = rs := by
      injection hcmp
    rw [← hrs] at hcc
    exact absurd hcc (List.not_mem_nil c))

/-- C8: a repository with a release whose commit comparison returns zero
commits is persisted, not skipped — its terminal state is processed and a
snapshot with an empty commit list is written into the crawl's results. -/
theorem empty_commits_persist (remote : Remote) (owner name : String)
    (rel : Release) (detail : RepoDetail)
    (hrel : checkLatestRelease (remote.latestReleaseResult name) = some rel)
    (hdet : remote.repoDetail name = Except.ok detail)
    (hcmp : remote.compareResult name = Except.ok [])
    (hw : remote.writeOk name = true) :
    processRepo remote owner name =
      Except.ok (RepoOutcome.processed,
        some (mkSnapshot owner name rel detail []), ["Saved commits"]) ∧
    (mkSnapshot owner name rel detail []).unreleasedCommits = [] ∧
    (∀ res, runCrawl remote owner = Except.ok res → name ∈ remote.repos →
      (name, mkSnapshot owner name rel detail []) ∈ res.snapshots) := by
  have hp := processRepo_processed remote owner name rel detail [] hrel hdet
    hcmp (by intro c hcc; exact absurd hcc (List.not_mem_nil c)) hw
  refine ⟨hp, rfl, ?_⟩
  intro res hres hmem
  obtain ⟨snaps, outs, cnt, log, hc, h1, -, -, -, -, -⟩ :=
    runCrawl_ok remote owner res hres
  rw [h1]
  exact crawlRepos_mem_processed remote owner remote.repos snaps outs cnt log
    name RepoOutcome.processed (mkSnapshot owner name rel detail [])
    ["Saved commits"] hc hmem hp

/-- Witness for C8 at a concrete remote whose single repository has release
`v1` and an empty commit comparison. -/
theorem empty_commits_persist_witness :
    processRepo procRemote "o" "a" =
      Except.ok (RepoOutcome.processed,
        some (mkSnapshot "o" "a" wRel wDetail []), ["Saved commits"]) ∧
    (mkSnapshot "o" "a" wRel wDetail []).unreleasedCommits = [] ∧
    (∀ res, runCrawl procRemote "o" = Except.ok res → "a" ∈ procRemote.repos →
      ("a", mkSnapshot "o" "a" wRel wDetail []) ∈ res.snapshots) :=
  empty_commits_persist procRemote "o" "a" wRel wDetail (by decide) rfl rfl rfl

/-- C9 counterexample: the final summary does not report the skipped count.
Two crawls with different skip counts (1 versus 0) produce the identical
final summary line, so that line cannot be reporting the number of skipped
repositories. -/
theorem summary_skip_count_cx :
    (runCrawl skipRemote "o").toOption.map CrawlResult.summary =
      (runCrawl emptyRemote "o").toOption.map CrawlResult.summary ∧
    (runCrawl skipRemote "o").toOption.map
      (fun r => countSkipped r.outcomes) = some 1 ∧
    (runCrawl emptyRemote "o").toOption.map
      (fun r => countSkipped r.outcomes) = some 0 :=
  ⟨rfl, rfl, rfl⟩

/-- C9 amended: the final summary reports only the processed (persisted)
count — it is the fixed format string around `processedCount`, which counts
exactly the processed terminal states; skipped repositories are reported
inline, one log line naming the repository per skip, not in the final
summary. -/
theorem summary_processed_only (remote : Remote) (owner : String)
    (res : CrawlResult) (h : runCrawl remote owner = Except.ok res) :
    res.summary = "Crawl complete! Processed " ++
      toString res.processedCount ++ " repositories with releases." ∧
    res.processedCount = countProcessed res.outcomes ∧
    (∀ name, name ∈ remote.repos →
      checkLatestRelease (remote.latestReleaseResult name) = none →
      ("Skipping " ++ name ++ " (no releases)") ∈ res.log) := by
  obtain ⟨snaps, outs, cnt, log, hc, h1, h2, h3, h4, h5, h6⟩ :=
    runCrawl_ok remote owner res h
  refine ⟨?_, ?_, ?_⟩
  · rw [h6, h3]
  · rw [h3, h2]
    exact crawlRepos_count remote owner remote.repos snaps outs cnt log hc
  · intro name hn hrel
    rw [h4]
    apply List.mem_append_left
    exact crawlRepos_mem_log remote owner remote.repos snaps outs cnt log name
      RepoOutcome.skippedNoRelease none
      ["Skipping " ++ name ++ " (no releases)"] hc hn
      (processRepo_skip remote owner name hrel) _
      (List.mem_singleton.mpr rfl)

/-- Witness for C9 (amended) at the concrete crawl result of `skipRemote`:
its summary carries the processed count 0 while the skip is reported in the
log. -/
theorem summary_processed_only_witness :
    wSkipResult.summary = "Crawl complete! Processed " ++
      toString wSkipResult.processedCount ++ " repositories with releases." ∧
    wSkipResult.processedCount = countProcessed wSkipResult.outcomes ∧
    (∀ name, name ∈ skipRemote.repos →
      checkLatestRelease (skipRemote.latestReleaseResult name) = none →
      ("Skipping " ++ name ++ " (no releases)") ∈ wSkipResult.log) :=
  summary_processed_only skipRemote "o" wSkipResult rfl

end Unreleased
